import Mathlib

/-!
Shallow embedding of `src/pr3/assembler.py`: a two-pass assembler that
parses JSON-object lines into IR command records and encodes each record
as two little-endian 32-bit words.

Python integers are unbounded and signed, so argument values are `Int`;
Python's `&`, `|` and `<<` on such integers are exactly `Int.land`,
`Int.lor` and `Int` shift-left (two's-complement bitwise semantics).
`struct.pack('<I', w)` is modelled as a serializer defined only for
`0 ≤ w < 2^32` (outside that range Python raises `struct.error`).
A Python dict is modelled as an association list consulted through a
single lookup function.
-/

namespace Assembler

/-- The table `OPCODES` of `assembler.py`: mnemonic → opcode value. -/
def OPCODES : List (String × Int) :=
  [("load_const", 0x01), ("read", 0x02), ("write", 0x03), ("bswap", 0x04)]

/-- An IR command record: the optional `"cmd"` field (a record whose
`"cmd"` key is absent has `cmd = none`) and the `"args"` mapping
(`ir_cmd.get('args', {})`). -/
structure IRCmd where
  cmd : Option String
  args : List (String × Int)
deriving Repr, DecidableEq

/-- `args.get(name, 0)`: look an argument up, defaulting to 0 when absent. -/
def getArg (args : List (String × Int)) (name : String) : Int :=
  (args.lookup name).getD 0

/-- `ir_cmd.get('cmd')` followed by the `opcode_name not in OPCODES`
membership test: a record without a `"cmd"` key yields `None`, which is
not a key of the table. -/
def lookupOpcode : Option String → Option Int
  | none => none
  | some s => OPCODES.lookup s

/-- Errors raised inside `translate_ir_to_machine_code`: the two
`ValueError`s of the dispatch chain, and `struct.error` for a word
outside the `'<I'` range. -/
inductive EncodeError where
  | unknownOpcode : Option String → EncodeError
  | unimplementedOpcode : String → EncodeError
  | packError : EncodeError
deriving Repr, DecidableEq

/-- `struct.pack('<I', w)`: the little-endian 4-byte serialization of a
32-bit unsigned word, defined exactly when `0 ≤ w < 2^32`. -/
def packLE4 (w : Int) : Option (List Nat) :=
  if 0 ≤ w ∧ w < 4294967296 then
    some [w.toNat % 256, w.toNat / 256 % 256, w.toNat / 256 ^ 2 % 256, w.toNat / 256 ^ 3 % 256]
  else none

/-- The little-endian 4 bytes of a machine word given as a `Nat`. -/
def le4bytes (n : Nat) : List Nat :=
  [n % 256, n / 256 % 256, n / 256 ^ 2 % 256, n / 256 ^ 3 % 256]

/-- `struct.pack('<II', w1, w2)` wrapped as the encoder sees it: the
8 bytes of the two words, or `struct.error`. -/
def packWords (w1 w2 : Int) : Except EncodeError (List Nat) :=
  match packLE4 w1, packLE4 w2 with
  | some b1, some b2 => .ok (b1 ++ b2)
  | _, _ => .error .packError

/-- The body of the per-command loop of `translate_ir_to_machine_code`:
the `OPCODES` membership test, then the mnemonic dispatch chain, each
branch reading its named arguments (default 0), masking, packing two
32-bit words. -/
def encodeCmd : IRCmd → Except EncodeError (List Nat)
  | ⟨none, _⟩ => .error (.unknownOpcode none)
  | ⟨some name, args⟩ =>
    match OPCODES.lookup name with
    | none => .error (.unknownOpcode (some name))
    | some opcode =>
      if name = "load_const" then
        let dst_reg := getArg args "dst"
        let value := getArg args "value"
        packWords (Int.lor ((Int.land dst_reg 0xFFFFFFF) <<< 4) (Int.land opcode 0xFF))
          (Int.land value 0xFFFFFFFF)
      else if name = "read" then
        let dst_reg := getArg args "dst"
        let src_addr := getArg args "src"
        packWords (Int.lor ((Int.land dst_reg 0xFFFFFFF) <<< 4) (Int.land opcode 0xFF))
          (Int.land src_addr 0xFFFFFFFF)
      else if name = "write" then
        let addr := getArg args "addr"
        let src_reg := getArg args "src"
        packWords (Int.land addr 0xFFFFFFFF)
          (Int.lor ((Int.land src_reg 0xFFFFFFF) <<< 4) (Int.land opcode 0xFF))
      else if name = "bswap" then
        let reg := getArg args "dst"
        packWords (Int.lor ((Int.land reg 0xFFFFFFF) <<< 4) (Int.land opcode 0xFF)) 0
      else .error (.unimplementedOpcode name)

/-- The encoding loop of `translate_ir_to_machine_code`: the
concatenation of the per-command encodings, aborted by the first
failure. -/
def translateIR : List IRCmd → Except EncodeError (List Nat)
  | [] => .ok []
  | c :: rest =>
    match encodeCmd c with
    | .error e => .error e
    | .ok b =>
      match translateIR rest with
      | .error e => .error e
      | .ok bs => .ok (b ++ bs)

/-- `translate_ir_to_machine_code` with its write phase: the output file
(modelled as `Option (List Nat)`, `none` = file absent) is overwritten
with the buffer only after every command encoded; an encode error is
raised before the file is even opened, leaving it untouched. -/
def translate_ir_to_machine_code (ir : List IRCmd) (file : Option (List Nat)) :
    Except EncodeError Unit × Option (List Nat) :=
  match translateIR ir with
  | .ok bs => (.ok (), some bs)
  | .error e => (.error e, file)

/-- One input line as the `assemble` loop sees it after stripping and
the external JSON parse: a blank/comment line, a line `json.loads`
rejects (`parse_asm_line` raises `ValueError`), or a parsed record. -/
inductive Line where
  | blank : Line
  | malformed : Line
  | record : IRCmd → Line
deriving Repr, DecidableEq

/-- The `ValueError` of `parse_asm_line` on a line that is not valid
JSON. -/
inductive ParseError where
  | malformedRecord : ParseError
deriving Repr, DecidableEq

/-- The IR-building loop of `assemble`: blank and comment lines are
skipped, a record without a `"cmd"` key is warned about and skipped,
and the first malformed line aborts the whole run. -/
def buildIR : List Line → Except ParseError (List IRCmd)
  | [] => .ok []
  | .blank :: rest => buildIR rest
  | .malformed :: _ => .error .malformedRecord
  | .record c :: rest =>
    match c.cmd with
    | none => buildIR rest
    | some _ =>
      match buildIR rest with
      | .error e => .error e
      | .ok ir => .ok (c :: ir)

/-- `assemble`: build the IR and, only when that succeeds, translate and
write; any failure leaves the output file exactly as it was. -/
def assemble (lines : List Line) (file : Option (List Nat)) : Option (List Nat) :=
  match buildIR lines with
  | .error _ => file
  | .ok ir => (translate_ir_to_machine_code ir file).2

/-! ### Arithmetic facts about masking -/

/-- Bitwise set difference against an all-ones low mask is complement
modulo the corresponding power of two. -/
lemma ldiff_two_pow_sub_one (k m : Nat) :
    Nat.ldiff (2 ^ k - 1) m = 2 ^ k - (m % 2 ^ k + 1) := by
  apply Nat.eq_of_testBit_eq
  intro i
  rw [Nat.testBit_ldiff, Nat.testBit_two_pow_sub_one,
    Nat.testBit_two_pow_sub_succ (Nat.mod_lt _ (Nat.two_pow_pos k)),
    Nat.testBit_mod_two_pow]
  cases h : decide (i < k) <;> simp [h]

/-- The Euclidean remainder of a negative integer by a power of two,
in terms of the remainder of its absolute predecessor. -/
lemma negSucc_emod_two_pow (m k : Nat) :
    Int.negSucc m % ((2 ^ k : Nat) : Int) = ((2 ^ k - (m % 2 ^ k + 1) : Nat) : Int) := by
  have hP : 0 < 2 ^ k := Nat.two_pow_pos k
  obtain ⟨q, r, hr, hm⟩ : ∃ q r, r < 2 ^ k ∧ m = 2 ^ k * q + r :=
    ⟨m / 2 ^ k, m % 2 ^ k, Nat.mod_lt _ hP, (Nat.div_add_mod m (2 ^ k)).symm⟩
  subst hm
  rw [Nat.mul_add_mod, Nat.mod_eq_of_lt hr]
  rw [Int.negSucc_eq]
  have hr1 : r + 1 ≤ 2 ^ k := hr
  rw [Nat.cast_sub hr1]
  push_cast
  have key : -(((2 : Int) ^ k * q + r) + 1) =
      ((2 : Int) ^ k - (r + 1)) + (2 : Int) ^ k * (-(q : Int) - 1) := by ring
  rw [key, Int.add_mul_emod_self_left]
  have h0 : (0 : Int) ≤ (2 : Int) ^ k - (r + 1) := by
    have : ((r : Int) + 1) ≤ (2 : Int) ^ k := by exact_mod_cast hr1
    omega
  have h1 : (2 : Int) ^ k - ((r : Int) + 1) < (2 : Int) ^ k := by
    have : (0 : Int) ≤ (r : Int) := Int.natCast_nonneg r
    omega
  rw [Int.emod_eq_of_lt h0 h1]

/-- Python's `x & (2^k - 1)` on an arbitrary (possibly negative)
integer is reduction modulo `2^k`. -/
lemma land_two_pow_sub_one (x : Int) (k : Nat) :
    Int.land x ((2 ^ k - 1 : Nat) : Int) = x % ((2 ^ k : Nat) : Int) := by
  cases x with
  | ofNat m =>
    show ((m &&& (2 ^ k - 1) : Nat) : Int) = ((m : Nat) : Int) % ((2 ^ k : Nat) : Int)
    rw [Nat.and_pow_two_sub_one_eq_mod]
    exact Int.ofNat_emod m (2 ^ k)
  | negSucc m =>
    show ((Nat.ldiff (2 ^ k - 1) m : Nat) : Int) = _
    rw [ldiff_two_pow_sub_one, ← negSucc_emod_two_pow]

/-- The 28-bit field mask of the source, as Euclidean remainder. -/
lemma land_mask28_eq (x : Int) : Int.land x 0xFFFFFFF = x % 2 ^ 28 := by
  have h := land_two_pow_sub_one x 28
  have e1 : ((2 ^ 28 - 1 : Nat) : Int) = 0xFFFFFFF := by norm_num
  have e2 : ((2 ^ 28 : Nat) : Int) = 2 ^ 28 := by norm_num
  rw [e1, e2] at h
  exact h

/-- The 8-bit opcode mask of the source, as Euclidean remainder. -/
lemma land_mask8_eq (x : Int) : Int.land x 0xFF = x % 2 ^ 8 := by
  have h := land_two_pow_sub_one x 8
  have e1 : ((2 ^ 8 - 1 : Nat) : Int) = 0xFF := by norm_num
  have e2 : ((2 ^ 8 : Nat) : Int) = 2 ^ 8 := by norm_num
  rw [e1, e2] at h
  exact h

/-- The 32-bit word mask of the source, as Euclidean remainder. -/
lemma land_mask32_eq (x : Int) : Int.land x 0xFFFFFFFF = x % 2 ^ 32 := by
  have h := land_two_pow_sub_one x 32
  have e1 : ((2 ^ 32 - 1 : Nat) : Int) = 0xFFFFFFFF := by norm_num
  have e2 : ((2 ^ 32 : Nat) : Int) = 2 ^ 32 := by norm_num
  rw [e1, e2] at h
  exact h

lemma emod_two_pow_nonneg (x : Int) (k : Nat) : 0 ≤ x % 2 ^ k :=
  Int.emod_nonneg x (by positivity)

lemma emod_two_pow_lt (x : Int) (k : Nat) : x % 2 ^ k < 2 ^ k :=
  Int.emod_lt_of_pos x (by positivity)

/-- A remainder modulo `2^k` written as the cast of a bounded natural. -/
lemma emod_two_pow_exists (x : Int) (k : Nat) :
    ∃ a : Nat, x % 2 ^ k = (a : Int) ∧ a < 2 ^ k := by
  refine ⟨(x % 2 ^ k).toNat, (Int.toNat_of_nonneg (emod_two_pow_nonneg x k)).symm, ?_⟩
  have h2 : x % 2 ^ k < ((2 ^ k : Nat) : Int) := by
    push_cast
    exact emod_two_pow_lt x k
  exact (Int.toNat_lt (emod_two_pow_nonneg x k)).mpr h2

/-- `Int.lor` on casts of naturals. -/
lemma lor_natCast (a b : Nat) :
    Int.lor ((a : Nat) : Int) ((b : Nat) : Int) = ((a ||| b : Nat) : Int) := rfl

/-- Shifting a cast natural left on `Int` is the cast of the `Nat` shift. -/
lemma shiftLeft_natCast4 (a : Nat) :
    ((a : Nat) : Int) <<< (4 : Int) = ((a <<< 4 : Nat) : Int) := by
  rw [show (4 : Int) = ((4 : Nat) : Int) by norm_num, Int.shiftLeft_coe_nat]

/-- A tagged word `a <<< 4 ||| b` of a 28-bit field and an 8-bit tag fits
32 bits. -/
lemma tagged_word_lt {a b : Nat} (ha : a < 2 ^ 28) (hb : b < 2 ^ 8) :
    a <<< 4 ||| b < 2 ^ 32 := by
  apply Nat.or_lt_two_pow
  · rw [Nat.shiftLeft_eq]
    omega
  · omega

/-- `struct.pack('<I', ·)` succeeds on a 32-bit natural. -/
lemma packLE4_natCast (n : Nat) (h : n < 2 ^ 32) :
    packLE4 ((n : Nat) : Int) = some (le4bytes n) := by
  unfold packLE4 le4bytes
  rw [if_pos ⟨Int.natCast_nonneg n, by exact_mod_cast h⟩]
  simp only [Int.toNat_natCast]

/-- `struct.pack('<II', ·, ·)` succeeds when both words serialize. -/
lemma packWords_eq_ok {w1 w2 : Int} {b1 b2 : List Nat}
    (h1 : packLE4 w1 = some b1) (h2 : packLE4 w2 = some b2) :
    packWords w1 w2 = .ok (b1 ++ b2) := by
  unfold packWords
  rw [h1, h2]

/-- `struct.pack('<II', ·, ·)` on two in-range naturals. -/
lemma packWords_natCast (a b : Nat) (ha : a < 2 ^ 32) (hb : b < 2 ^ 32) :
    packWords ((a : Nat) : Int) ((b : Nat) : Int) = .ok (le4bytes a ++ le4bytes b) :=
  packWords_eq_ok (packLE4_natCast a ha) (packLE4_natCast b hb)

/-- The tagged-first layout shared by `load_const` and `read`: packing
`(x & 0xFFFFFFF) << 4 | (c & 0xFF)` then `y & 0xFFFFFFFF` always
succeeds, with the words reduced to natural numbers. -/
lemma packWords_tagged_first (x c y : Int) :
    packWords (Int.lor ((Int.land x 0xFFFFFFF) <<< 4) (Int.land c 0xFF))
        (Int.land y 0xFFFFFFFF) =
      .ok (le4bytes ((x % 2 ^ 28).toNat <<< 4 ||| (c % 2 ^ 8).toNat) ++
           le4bytes (y % 2 ^ 32).toNat) := by
  obtain ⟨a, ha, ha'⟩ := emod_two_pow_exists x 28
  obtain ⟨b, hb, hb'⟩ := emod_two_pow_exists c 8
  obtain ⟨d, hd, hd'⟩ := emod_two_pow_exists y 32
  rw [land_mask28_eq, land_mask8_eq, land_mask32_eq, ha, hb, hd,
    shiftLeft_natCast4, lor_natCast,
    packWords_natCast _ _ (tagged_word_lt ha' hb') hd']
  simp

/-- The tag-last layout of `write`: packing `y & 0xFFFFFFFF` then
`(x & 0xFFFFFFF) << 4 | (c & 0xFF)` always succeeds. -/
lemma packWords_tagged_second (y x c : Int) :
    packWords (Int.land y 0xFFFFFFFF)
        (Int.lor ((Int.land x 0xFFFFFFF) <<< 4) (Int.land c 0xFF)) =
      .ok (le4bytes (y % 2 ^ 32).toNat ++
           le4bytes ((x % 2 ^ 28).toNat <<< 4 ||| (c % 2 ^ 8).toNat)) := by
  obtain ⟨a, ha, ha'⟩ := emod_two_pow_exists x 28
  obtain ⟨b, hb, hb'⟩ := emod_two_pow_exists c 8
  obtain ⟨d, hd, hd'⟩ := emod_two_pow_exists y 32
  rw [land_mask28_eq, land_mask8_eq, land_mask32_eq, ha, hb, hd,
    shiftLeft_natCast4, lor_natCast,
    packWords_natCast _ _ hd' (tagged_word_lt ha' hb')]
  simp

/-- The `bswap` layout: a tagged first word and a reserved zero second
word. -/
lemma packWords_tagged_zero (x c : Int) :
    packWords (Int.lor ((Int.land x 0xFFFFFFF) <<< 4) (Int.land c 0xFF)) 0 =
      .ok (le4bytes ((x % 2 ^ 28).toNat <<< 4 ||| (c % 2 ^ 8).toNat) ++
           le4bytes 0) := by
  obtain ⟨a, ha, ha'⟩ := emod_two_pow_exists x 28
  obtain ⟨b, hb, hb'⟩ := emod_two_pow_exists c 8
  rw [land_mask28_eq, land_mask8_eq, ha, hb, shiftLeft_natCast4, lor_natCast,
    show (0 : Int) = ((0 : Nat) : Int) by norm_num,
    packWords_natCast _ _ (tagged_word_lt ha' hb') (by norm_num)]
  simp

/-- A tagged word `(x & 0xFFFFFFF) << 4 | (c & 0xFF)` is the cast of a
natural number built from the two reduced fields. -/
lemma tagged_word_natCast (x c : Int) :
    Int.lor ((Int.land x 0xFFFFFFF) <<< 4) (Int.land c 0xFF) =
      (((x % 2 ^ 28).toNat <<< 4 ||| (c % 2 ^ 8).toNat : Nat) : Int) := by
  obtain ⟨a, ha, _⟩ := emod_two_pow_exists x 28
  obtain ⟨b, hb, _⟩ := emod_two_pow_exists c 8
  rw [land_mask28_eq, land_mask8_eq, ha, hb, shiftLeft_natCast4, lor_natCast]
  simp

lemma emod_toNat_lt (x : Int) (k : Nat) : (x % 2 ^ k).toNat < 2 ^ k := by
  obtain ⟨a, ha, ha'⟩ := emod_two_pow_exists x k
  rw [ha]
  simpa using ha'

/-- Both fields reduced, a tagged word is a 32-bit value. -/
lemma tagged_word_range (x c : Int) :
    0 ≤ Int.lor ((Int.land x 0xFFFFFFF) <<< 4) (Int.land c 0xFF) ∧
      Int.lor ((Int.land x 0xFFFFFFF) <<< 4) (Int.land c 0xFF) < 2 ^ 32 := by
  rw [tagged_word_natCast]
  refine ⟨Int.natCast_nonneg _, ?_⟩
  have h := tagged_word_lt (emod_toNat_lt x 28) (emod_toNat_lt c 8)
  exact_mod_cast h

/-- An untagged full word `y & 0xFFFFFFFF` is a 32-bit value. -/
lemma land32_range (y : Int) :
    0 ≤ Int.land y 0xFFFFFFFF ∧ Int.land y 0xFFFFFFFF < 2 ^ 32 := by
  rw [land_mask32_eq]
  exact ⟨emod_two_pow_nonneg y 32, emod_two_pow_lt y 32⟩

/-- `struct.pack('<I', ·)` succeeds on any word in unsigned 32-bit range. -/
lemma packLE4_of_range {w : Int} (h0 : 0 ≤ w) (h1 : w < 2 ^ 32) :
    packLE4 w = some (le4bytes w.toNat) := by
  unfold packLE4 le4bytes
  rw [if_pos ⟨h0, by norm_num at h1 ⊢; exact h1⟩]

/-- The `toNat` of a tagged word, in terms of the reduced fields. -/
lemma tagged_word_toNat (x c : Int) :
    (Int.lor ((Int.land x 0xFFFFFFF) <<< 4) (Int.land c 0xFF)).toNat =
      (x % 2 ^ 28).toNat <<< 4 ||| (c % 2 ^ 8).toNat := by
  rw [tagged_word_natCast]
  simp

/-- The low 4 bits of a tagged word recover a small tag. -/
lemma tagged_mod16 (a c : Nat) (hc : c < 16) :
    (((a <<< 4 ||| c : Nat)) : Int) % 16 = (c : Int) := by
  have hc' : c < 2 ^ 4 := by omega
  rw [Nat.shiftLeft_eq, Nat.mul_comm, ← Nat.mul_add_lt_is_or hc' a]
  push_cast
  omega

/-! ### Normal forms of the four encoder branches -/

lemma encodeCmd_load_const_step (args : List (String × Int)) :
    encodeCmd ⟨some "load_const", args⟩ =
      packWords (Int.lor ((Int.land (getArg args "dst") 0xFFFFFFF) <<< 4) (Int.land 1 0xFF))
        (Int.land (getArg args "value") 0xFFFFFFFF) := rfl

lemma encodeCmd_read_step (args : List (String × Int)) :
    encodeCmd ⟨some "read", args⟩ =
      packWords (Int.lor ((Int.land (getArg args "dst") 0xFFFFFFF) <<< 4) (Int.land 2 0xFF))
        (Int.land (getArg args "src") 0xFFFFFFFF) := rfl

lemma encodeCmd_write_step (args : List (String × Int)) :
    encodeCmd ⟨some "write", args⟩ =
      packWords (Int.land (getArg args "addr") 0xFFFFFFFF)
        (Int.lor ((Int.land (getArg args "src") 0xFFFFFFF) <<< 4) (Int.land 3 0xFF)) := rfl

lemma encodeCmd_bswap_step (args : List (String × Int)) :
    encodeCmd ⟨some "bswap", args⟩ =
      packWords (Int.lor ((Int.land (getArg args "dst") 0xFFFFFFF) <<< 4) (Int.land 4 0xFF)) 0 := rfl

/-- The `load_const` branch always succeeds, encoding the two words
below. -/
lemma encodeCmd_load_const (args : List (String × Int)) :
    encodeCmd ⟨some "load_const", args⟩ =
      .ok (le4bytes ((getArg args "dst" % 2 ^ 28).toNat <<< 4 ||| 1) ++
           le4bytes (getArg args "value" % 2 ^ 32).toNat) := by
  rw [encodeCmd_load_const_step, land_mask32_eq,
    packWords_eq_ok (packLE4_of_range (tagged_word_range _ 1).1 (tagged_word_range _ 1).2)
      (packLE4_of_range (emod_two_pow_nonneg _ 32) (emod_two_pow_lt _ 32)),
    tagged_word_toNat]
  rfl

/-- The `read` branch always succeeds, encoding the two words below. -/
lemma encodeCmd_read (args : List (String × Int)) :
    encodeCmd ⟨some "read", args⟩ =
      .ok (le4bytes ((getArg args "dst" % 2 ^ 28).toNat <<< 4 ||| 2) ++
           le4bytes (getArg args "src" % 2 ^ 32).toNat) := by
  rw [encodeCmd_read_step, land_mask32_eq,
    packWords_eq_ok (packLE4_of_range (tagged_word_range _ 2).1 (tagged_word_range _ 2).2)
      (packLE4_of_range (emod_two_pow_nonneg _ 32) (emod_two_pow_lt _ 32)),
    tagged_word_toNat]
  rfl

/-- The `write` branch always succeeds, encoding the two words below. -/
lemma encodeCmd_write (args : List (String × Int)) :
    encodeCmd ⟨some "write", args⟩ =
      .ok (le4bytes (getArg args "addr" % 2 ^ 32).toNat ++
           le4bytes ((getArg args "src" % 2 ^ 28).toNat <<< 4 ||| 3)) := by
  rw [encodeCmd_write_step, land_mask32_eq,
    packWords_eq_ok (packLE4_of_range (emod_two_pow_nonneg _ 32) (emod_two_pow_lt _ 32))
      (packLE4_of_range (tagged_word_range _ 3).1 (tagged_word_range _ 3).2),
    tagged_word_toNat]
  rfl

/-- The `bswap` branch always succeeds, with a zero second word. -/
lemma encodeCmd_bswap (args : List (String × Int)) :
    encodeCmd ⟨some "bswap", args⟩ =
      .ok (le4bytes ((getArg args "dst" % 2 ^ 28).toNat <<< 4 ||| 4) ++ [0, 0, 0, 0]) := by
  rw [encodeCmd_bswap_step,
    packWords_eq_ok (packLE4_of_range (tagged_word_range _ 4).1 (tagged_word_range _ 4).2)
      (packLE4_of_range le_rfl (by norm_num)),
    tagged_word_toNat]
  rfl

/-! ### Argument lookup and dispatch facts -/

lemma getArg_cons_self (name : String) (v : Int) (rest : List (String × Int)) :
    getArg ((name, v) :: rest) name = v := by
  simp [getArg, List.lookup]

lemma getArg_cons_ne (n2 name : String) (v : Int) (rest : List (String × Int))
    (h : n2 ≠ name) : getArg ((name, v) :: rest) n2 = getArg rest n2 := by
  simp [getArg, List.lookup, beq_eq_false_iff_ne.mpr h]

/-- A mnemonic the table resolves is one of the four of the source. -/
lemma lookup_isSome_cases {name : String} (h : (OPCODES.lookup name).isSome) :
    name = "load_const" ∨ name = "read" ∨ name = "write" ∨ name = "bswap" := by
  by_contra hc
  push_neg at hc
  obtain ⟨h1, h2, h3, h4⟩ := hc
  have : OPCODES.lookup name = none := by
    simp [OPCODES, List.lookup, beq_eq_false_iff_ne.mpr h1, beq_eq_false_iff_ne.mpr h2,
      beq_eq_false_iff_ne.mpr h3, beq_eq_false_iff_ne.mpr h4]
  rw [this] at h
  simp at h

/-- A record with no `"cmd"` key hits the `not in OPCODES` branch. -/
lemma encodeCmd_none (args : List (String × Int)) :
    encodeCmd ⟨none, args⟩ = .error (.unknownOpcode none) := rfl

/-- A mnemonic missing from the table raises the unknown-command
`ValueError`. -/
lemma encodeCmd_some_unknown (name : String) (args : List (String × Int))
    (h : OPCODES.lookup name = none) :
    encodeCmd ⟨some name, args⟩ = .error (.unknownOpcode (some name)) := by
  simp only [encodeCmd]
  rw [h]

/-- A mnemonic the table resolves always encodes (to some 8-byte
pair). -/
lemma encodeCmd_ok_of_isSome {c : IRCmd} (h : (lookupOpcode c.cmd).isSome) :
    ∃ b, encodeCmd c = .ok b := by
  obtain ⟨cmd, args⟩ := c
  cases cmd with
  | none => simp [lookupOpcode] at h
  | some name =>
    simp only [lookupOpcode] at h
    rcases lookup_isSome_cases h with h1 | h1 | h1 | h1 <;> subst h1
    · exact ⟨_, encodeCmd_load_const args⟩
    · exact ⟨_, encodeCmd_read args⟩
    · exact ⟨_, encodeCmd_write args⟩
    · exact ⟨_, encodeCmd_bswap args⟩

lemma packLE4_length {w : Int} {b : List Nat} (h : packLE4 w = some b) :
    b.length = 4 := by
  unfold packLE4 at h
  split at h
  · cases h
    rfl
  · cases h

lemma packWords_ok_length {w1 w2 : Int} {bs : List Nat}
    (h : packWords w1 w2 = .ok bs) : bs.length = 8 := by
  unfold packWords at h
  cases h1 : packLE4 w1 with
  | none =>
    rw [h1] at h
    cases h
  | some b1 =>
    cases h2 : packLE4 w2 with
    | none =>
      rw [h1, h2] at h
      cases h
    | some b2 =>
      rw [h1, h2] at h
      cases h
      have l1 := packLE4_length h1
      have l2 := packLE4_length h2
      simp [List.length_append, l1, l2]

/-- A successful per-command encoding is a `packWords` result. -/
lemma encodeCmd_ok_shape {c : IRCmd} {b : List Nat} (h : encodeCmd c = .ok b) :
    ∃ w1 w2, packWords w1 w2 = .ok b := by
  obtain ⟨cmd, args⟩ := c
  cases cmd with
  | none => cases h
  | some name =>
    simp only [encodeCmd] at h
    cases hl : OPCODES.lookup name with
    | none =>
      rw [hl] at h
      cases h
    | some opcode =>
      rw [hl] at h
      dsimp only at h
      by_cases e1 : name = "load_const"
      · rw [if_pos e1] at h
        exact ⟨_, _, h⟩
      rw [if_neg e1] at h
      by_cases e2 : name = "read"
      · rw [if_pos e2] at h
        exact ⟨_, _, h⟩
      rw [if_neg e2] at h
      by_cases e3 : name = "write"
      · rw [if_pos e3] at h
        exact ⟨_, _, h⟩
      rw [if_neg e3] at h
      by_cases e4 : name = "bswap"
      · rw [if_pos e4] at h
        exact ⟨_, _, h⟩
      rw [if_neg e4] at h
      cases h

/-- Every successfully encoded command contributes exactly 8 bytes. -/
lemma encodeCmd_length {c : IRCmd} {b : List Nat} (h : encodeCmd c = .ok b) :
    b.length = 8 := by
  obtain ⟨w1, w2, hw⟩ := encodeCmd_ok_shape h
  exact packWords_ok_length hw

/-- The loop output length is 8 bytes per IR command. -/
lemma translateIR_ok_length {ir : List IRCmd} {bs : List Nat}
    (h : translateIR ir = .ok bs) : bs.length = 8 * ir.length := by
  induction ir generalizing bs with
  | nil =>
    unfold translateIR at h
    cases h
    rfl
  | cons c rest ih =>
    unfold translateIR at h
    cases hc : encodeCmd c with
    | error e =>
      rw [hc] at h
      cases h
    | ok b =>
      rw [hc] at h
      cases hr : translateIR rest with
      | error e =>
        rw [hr] at h
        cases h
      | ok bs2 =>
        rw [hr] at h
        cases h
        have hb := encodeCmd_length hc
        have ht := ih hr
        simp [List.length_append, hb, ht, List.length_cons]
        ring

/-- The first failing command aborts the whole loop with its error. -/
lemma translateIR_error_append (pre : List IRCmd) (c : IRCmd)
    (post : List IRCmd) (e : EncodeError)
    (hpre : ∀ c' ∈ pre, ∃ b, encodeCmd c' = .ok b)
    (hc : encodeCmd c = .error e) :
    translateIR (pre ++ c :: post) = .error e := by
  induction pre with
  | nil =>
    rw [List.nil_append]
    unfold translateIR
    rw [hc]
  | cons d pre ih =>
    obtain ⟨b, hb⟩ := hpre d (by simp)
    have ih' := ih fun c' hc' => hpre c' (by simp [hc'])
    rw [List.cons_append]
    unfold translateIR
    rw [hb, ih']

/-! ### IR-builder and write-phase facts -/

/-- Dropping a record without a `"cmd"` key leaves the built IR
unchanged. -/
lemma buildIR_skip_missing (pre post : List Line) (args : List (String × Int)) :
    buildIR (pre ++ Line.record ⟨none, args⟩ :: post) = buildIR (pre ++ post) := by
  induction pre with
  | nil => rfl
  | cons l pre ih =>
    cases l with
    | blank =>
      rw [List.cons_append, List.cons_append]
      simp only [buildIR]
      exact ih
    | malformed => rfl
    | record c =>
      rw [List.cons_append, List.cons_append]
      simp only [buildIR]
      rw [ih]

/-- A malformed line anywhere makes the whole build fail. -/
lemma buildIR_malformed_mem (lines : List Line) (h : Line.malformed ∈ lines) :
    buildIR lines = .error .malformedRecord := by
  induction lines with
  | nil => cases h
  | cons l rest ih =>
    cases l with
    | malformed => rfl
    | blank =>
      simp only [buildIR]
      exact ih (by simpa using h)
    | record c =>
      have hm : Line.malformed ∈ rest := by
        rcases List.mem_cons.mp h with h' | h'
        · cases h'
        · exact h'
      simp only [buildIR]
      rw [ih hm]
      rcases hc : c.cmd with _ | s <;> rfl

/-- An encode failure leaves the output file untouched. -/
lemma translate_ir_error (ir : List IRCmd) (file : Option (List Nat)) (e : EncodeError)
    (h : translateIR ir = .error e) :
    translate_ir_to_machine_code ir file = (.error e, file) := by
  unfold translate_ir_to_machine_code
  rw [h]

lemma emod_two_pow_idem (x : Int) (k : Nat) : x % 2 ^ k % 2 ^ k = x % 2 ^ k :=
  Int.emod_emod_of_dvd x dvd_rfl

/-- The low 4 bits of a tagged word recover the (small) tag. -/
lemma tagged_word_emod16 (x c : Int) (hc : (c % 2 ^ 8).toNat < 16) :
    Int.lor ((Int.land x 0xFFFFFFF) <<< 4) (Int.land c 0xFF) % 16 =
      (((c % 2 ^ 8).toNat : Nat) : Int) := by
  rw [tagged_word_natCast]
  exact tagged_mod16 _ _ hc

/-! ### Claim theorems -/

set_option maxRecDepth 20000 in
/-- C1: every IR command with mnemonic `load_const`, `dst = d` and
`value = v` (each defaulting to 0 when absent) encodes to exactly the
little-endian 4-byte serialization of the 32-bit word
`((d & 0xFFFFFFF) << 4) | 0x01` followed by the little-endian 4-byte
serialization of `v & 0xFFFFFFFF`; in particular `dst = 3`, `value = 42`
yields the bytes `31 00 00 00 2A 00 00 00`. -/
theorem C1_load_const_encoding (args : List (String × Int)) :
    encodeCmd ⟨some "load_const", args⟩ =
      .ok (le4bytes (Int.lor ((Int.land (getArg args "dst") 0xFFFFFFF) <<< 4) 0x01).toNat ++
           le4bytes (Int.land (getArg args "value") 0xFFFFFFFF).toNat) ∧
    encodeCmd ⟨some "load_const", [("dst", 3), ("value", 42)]⟩ =
      .ok [0x31, 0x00, 0x00, 0x00, 0x2A, 0x00, 0x00, 0x00] := by
  constructor
  · have h1 : Int.lor ((Int.land (getArg args "dst") 0xFFFFFFF) <<< 4) 0x01 =
        Int.lor ((Int.land (getArg args "dst") 0xFFFFFFF) <<< 4) (Int.land 1 0xFF) := rfl
    rw [h1, tagged_word_toNat, land_mask32_eq, encodeCmd_load_const args]
    rfl
  · rfl

set_option maxRecDepth 20000 in
/-- C3: every IR command with mnemonic `read` (arguments defaulting to 0
when absent) encodes a first word `((dst & 0xFFFFFFF) << 4) | (0x02 & 0xFF)`
and a second word equal to `src` masked to the full 32-bit width
`0xFFFFFFFF`, not to 28 bits: the masks differ at bit 28, and the
byte `0x10` of input `src = 0x10000000` survives in the output. -/
theorem C3_read_encoding (args : List (String × Int)) :
    encodeCmd ⟨some "read", args⟩ =
      .ok (le4bytes (Int.lor ((Int.land (getArg args "dst") 0xFFFFFFF) <<< 4)
             (Int.land 0x02 0xFF)).toNat ++
           le4bytes (Int.land (getArg args "src") 0xFFFFFFFF).toNat) ∧
    Int.land (getArg args "src") 0xFFFFFFFF = getArg args "src" % 2 ^ 32 ∧
    Int.land (0x10000000 : Int) 0xFFFFFFFF ≠ Int.land (0x10000000 : Int) 0xFFFFFFF ∧
    encodeCmd ⟨some "read", [("dst", 0), ("src", 0x10000000)]⟩ =
      .ok [0x02, 0x00, 0x00, 0x00, 0x00, 0x00, 0x00, 0x10] := by
  refine ⟨?_, land_mask32_eq _, by decide, rfl⟩
  rw [tagged_word_toNat, land_mask32_eq, encodeCmd_read args]
  rfl

/-- C4: whenever the whole IR sequence encodes successfully, the output
buffer is exactly 8 bytes per IR command: no header, separator or
footer. -/
theorem C4_output_length (ir : List IRCmd) (bs : List Nat)
    (h : translateIR ir = .ok bs) : bs.length = 8 * ir.length :=
  translateIR_ok_length h

set_option maxRecDepth 20000 in
/-- Witness for C4 on a concrete two-command program. -/
theorem C4_output_length_witness :
    translateIR [⟨some "load_const", [("dst", 3), ("value", 42)]⟩, ⟨some "bswap", [("dst", 5)]⟩] =
      .ok [0x31, 0, 0, 0, 0x2A, 0, 0, 0, 0x54, 0, 0, 0, 0, 0, 0, 0] ∧
    ([0x31, 0, 0, 0, 0x2A, 0, 0, 0, 0x54, 0, 0, 0, 0, 0, 0, 0] : List Nat).length = 8 * 2 :=
  ⟨rfl, C4_output_length
    [⟨some "load_const", [("dst", 3), ("value", 42)]⟩, ⟨some "bswap", [("dst", 5)]⟩]
    [0x31, 0, 0, 0, 0x2A, 0, 0, 0, 0x54, 0, 0, 0, 0, 0, 0, 0] rfl⟩

/-- C7: a parsed record lacking the `"cmd"` field is dropped and the
run continues: both the built IR and the final output file contents are
exactly those of the input with that line absent. -/
theorem C7_missing_mnemonic_skipped (pre post : List Line) (args : List (String × Int))
    (file : Option (List Nat)) :
    buildIR (pre ++ Line.record ⟨none, args⟩ :: post) = buildIR (pre ++ post) ∧
    assemble (pre ++ Line.record ⟨none, args⟩ :: post) file = assemble (pre ++ post) file := by
  have hb := buildIR_skip_missing pre post args
  refine ⟨hb, ?_⟩
  unfold assemble
  rw [hb]

/-- C8: a malformed (non-blank, non-comment, not valid JSON) line makes
the whole run abort with `MalformedRecord`: the IR build fails, nothing
reaches the encoder, and the output file is left exactly as it was. -/
theorem C8_malformed_fatal (lines : List Line) (file : Option (List Nat))
    (h : Line.malformed ∈ lines) :
    buildIR lines = .error .malformedRecord ∧ assemble lines file = file := by
  have hb := buildIR_malformed_mem lines h
  refine ⟨hb, ?_⟩
  unfold assemble
  rw [hb]

/-- Witness for C8: a malformed line after a valid command, with a
pre-existing output file. -/
theorem C8_malformed_fatal_witness :
    buildIR [Line.record ⟨some "bswap", [("dst", 5)]⟩, Line.malformed] =
      .error .malformedRecord ∧
    assemble [Line.record ⟨some "bswap", [("dst", 5)]⟩, Line.malformed] (some [7, 7]) =
      some [7, 7] :=
  C8_malformed_fatal _ _ (by decide)

/-- C5: if a command with a mnemonic outside the opcode table follows
commands whose mnemonics are all known, encoding fails with the
unknown-command error at that command, and the failure is atomic: the
write phase is never reached, so the output file keeps its previous
contents no matter how many earlier commands encoded successfully. -/
theorem C5_unknown_opcode_atomic (pre : List IRCmd) (c : IRCmd) (post : List IRCmd)
    (file : Option (List Nat))
    (hpre : ∀ c2 ∈ pre, (lookupOpcode c2.cmd).isSome)
    (hc : lookupOpcode c.cmd = none) :
    translateIR (pre ++ c :: post) = .error (.unknownOpcode c.cmd) ∧
    translate_ir_to_machine_code (pre ++ c :: post) file =
      (.error (.unknownOpcode c.cmd), file) := by
  have hcenc : encodeCmd c = .error (.unknownOpcode c.cmd) := by
    obtain ⟨cmd, args⟩ := c
    cases cmd with
    | none => rfl
    | some name =>
      simp only [lookupOpcode] at hc
      exact encodeCmd_some_unknown name args hc
  have ht := translateIR_error_append pre c post _
    (fun c2 h2 => encodeCmd_ok_of_isSome (hpre c2 h2)) hcenc
  exact ⟨ht, translate_ir_error _ _ _ ht⟩

/-- Witness for C5: an unknown mnemonic `nop` after a valid
`load_const`, with a pre-existing output file. -/
theorem C5_unknown_opcode_atomic_witness :
    translateIR [⟨some "load_const", [("dst", 3)]⟩, ⟨some "nop", []⟩] =
      .error (.unknownOpcode (some "nop")) ∧
    translate_ir_to_machine_code [⟨some "load_const", [("dst", 3)]⟩, ⟨some "nop", []⟩]
      (some [9]) = (.error (.unknownOpcode (some "nop")), some [9]) :=
  C5_unknown_opcode_atomic [⟨some "load_const", [("dst", 3)]⟩] ⟨some "nop", []⟩ []
    (some [9]) (by decide) (by decide)

set_option maxRecDepth 20000 in
/-- C6: over-width operands are truncated by masking, never rejected:
for each opcode and each argument its layout reads, pre-masking that
argument to its field width leaves the encoding byte-identical; in
particular `dst = 0x1FFFFFFF` in a `load_const` encodes identically to
`dst = 0x1FFFFFFF & 0xFFFFFFF`. -/
theorem C6_masking_truncation (x : Int) (rest : List (String × Int)) :
    (encodeCmd ⟨some "load_const", ("dst", x) :: rest⟩ =
      encodeCmd ⟨some "load_const", ("dst", Int.land x 0xFFFFFFF) :: rest⟩) ∧
    (encodeCmd ⟨some "load_const", ("value", x) :: rest⟩ =
      encodeCmd ⟨some "load_const", ("value", Int.land x 0xFFFFFFFF) :: rest⟩) ∧
    (encodeCmd ⟨some "read", ("dst", x) :: rest⟩ =
      encodeCmd ⟨some "read", ("dst", Int.land x 0xFFFFFFF) :: rest⟩) ∧
    (encodeCmd ⟨some "read", ("src", x) :: rest⟩ =
      encodeCmd ⟨some "read", ("src", Int.land x 0xFFFFFFFF) :: rest⟩) ∧
    (encodeCmd ⟨some "write", ("addr", x) :: rest⟩ =
      encodeCmd ⟨some "write", ("addr", Int.land x 0xFFFFFFFF) :: rest⟩) ∧
    (encodeCmd ⟨some "write", ("src", x) :: rest⟩ =
      encodeCmd ⟨some "write", ("src", Int.land x 0xFFFFFFF) :: rest⟩) ∧
    (encodeCmd ⟨some "bswap", ("dst", x) :: rest⟩ =
      encodeCmd ⟨some "bswap", ("dst", Int.land x 0xFFFFFFF) :: rest⟩) ∧
    encodeCmd ⟨some "load_const", [("dst", 0x1FFFFFFF)]⟩ =
      encodeCmd ⟨some "load_const", [("dst", Int.land 0x1FFFFFFF 0xFFFFFFF)]⟩ := by
  refine ⟨?_, ?_, ?_, ?_, ?_, ?_, ?_, rfl⟩
  · rw [encodeCmd_load_const, encodeCmd_load_const, getArg_cons_self, getArg_cons_self,
      getArg_cons_ne "value" "dst" x rest (by decide),
      getArg_cons_ne "value" "dst" (Int.land x 0xFFFFFFF) rest (by decide),
      land_mask28_eq, emod_two_pow_idem]
  · rw [encodeCmd_load_const, encodeCmd_load_const, getArg_cons_self, getArg_cons_self,
      getArg_cons_ne "dst" "value" x rest (by decide),
      getArg_cons_ne "dst" "value" (Int.land x 0xFFFFFFFF) rest (by decide),
      land_mask32_eq, emod_two_pow_idem]
  · rw [encodeCmd_read, encodeCmd_read, getArg_cons_self, getArg_cons_self,
      getArg_cons_ne "src" "dst" x rest (by decide),
      getArg_cons_ne "src" "dst" (Int.land x 0xFFFFFFF) rest (by decide),
      land_mask28_eq, emod_two_pow_idem]
  · rw [encodeCmd_read, encodeCmd_read, getArg_cons_self, getArg_cons_self,
      getArg_cons_ne "dst" "src" x rest (by decide),
      getArg_cons_ne "dst" "src" (Int.land x 0xFFFFFFFF) rest (by decide),
      land_mask32_eq, emod_two_pow_idem]
  · rw [encodeCmd_write, encodeCmd_write, getArg_cons_self, getArg_cons_self,
      getArg_cons_ne "src" "addr" x rest (by decide),
      getArg_cons_ne "src" "addr" (Int.land x 0xFFFFFFFF) rest (by decide),
      land_mask32_eq, emod_two_pow_idem]
  · rw [encodeCmd_write, encodeCmd_write, getArg_cons_self, getArg_cons_self,
      getArg_cons_ne "addr" "src" x rest (by decide),
      getArg_cons_ne "addr" "src" (Int.land x 0xFFFFFFF) rest (by decide),
      land_mask28_eq, emod_two_pow_idem]
  · rw [encodeCmd_bswap, encodeCmd_bswap, getArg_cons_self, getArg_cons_self,
      land_mask28_eq, emod_two_pow_idem]

/-- C9: the encoder is total over unrestricted integer arguments: for
any table mnemonic and arbitrary (also negative or huge) argument
integers, both computed words lie in `[0, 2^32)`, so both 4-byte
little-endian serializations are defined and encoding returns the
8 bytes rather than failing. -/
theorem C9_encoder_total (name : String) (args : List (String × Int))
    (h : (lookupOpcode (some name)).isSome) :
    ∃ w1 w2 : Int, encodeCmd ⟨some name, args⟩ = packWords w1 w2 ∧
      0 ≤ w1 ∧ w1 < 2 ^ 32 ∧ 0 ≤ w2 ∧ w2 < 2 ^ 32 ∧
      packLE4 w1 = some (le4bytes w1.toNat) ∧
      packLE4 w2 = some (le4bytes w2.toNat) ∧
      encodeCmd ⟨some name, args⟩ = .ok (le4bytes w1.toNat ++ le4bytes w2.toNat) := by
  simp only [lookupOpcode] at h
  rcases lookup_isSome_cases h with h1 | h1 | h1 | h1 <;> subst h1
  · obtain ⟨r1a, r1b⟩ := tagged_word_range (getArg args "dst") 1
    obtain ⟨r2a, r2b⟩ := land32_range (getArg args "value")
    refine ⟨_, _, encodeCmd_load_const_step args, r1a, r1b, r2a, r2b,
      packLE4_of_range r1a r1b, packLE4_of_range r2a r2b, ?_⟩
    rw [encodeCmd_load_const_step args]
    exact packWords_eq_ok (packLE4_of_range r1a r1b) (packLE4_of_range r2a r2b)
  · obtain ⟨r1a, r1b⟩ := tagged_word_range (getArg args "dst") 2
    obtain ⟨r2a, r2b⟩ := land32_range (getArg args "src")
    refine ⟨_, _, encodeCmd_read_step args, r1a, r1b, r2a, r2b,
      packLE4_of_range r1a r1b, packLE4_of_range r2a r2b, ?_⟩
    rw [encodeCmd_read_step args]
    exact packWords_eq_ok (packLE4_of_range r1a r1b) (packLE4_of_range r2a r2b)
  · obtain ⟨r1a, r1b⟩ := land32_range (getArg args "addr")
    obtain ⟨r2a, r2b⟩ := tagged_word_range (getArg args "src") 3
    refine ⟨_, _, encodeCmd_write_step args, r1a, r1b, r2a, r2b,
      packLE4_of_range r1a r1b, packLE4_of_range r2a r2b, ?_⟩
    rw [encodeCmd_write_step args]
    exact packWords_eq_ok (packLE4_of_range r1a r1b) (packLE4_of_range r2a r2b)
  · obtain ⟨r1a, r1b⟩ := tagged_word_range (getArg args "dst") 4
    have r2a : (0 : Int) ≤ 0 := le_rfl
    have r2b : (0 : Int) < 2 ^ 32 := by norm_num
    refine ⟨_, _, encodeCmd_bswap_step args, r1a, r1b, r2a, r2b,
      packLE4_of_range r1a r1b, packLE4_of_range r2a r2b, ?_⟩
    rw [encodeCmd_bswap_step args]
    exact packWords_eq_ok (packLE4_of_range r1a r1b) (packLE4_of_range r2a r2b)

/-- Witness for C9: `bswap` with a negative operand still encodes. -/
theorem C9_encoder_total_witness :
    ∃ w1 w2 : Int, encodeCmd ⟨some "bswap", [("dst", -1)]⟩ = packWords w1 w2 ∧
      0 ≤ w1 ∧ w1 < 2 ^ 32 ∧ 0 ≤ w2 ∧ w2 < 2 ^ 32 ∧
      packLE4 w1 = some (le4bytes w1.toNat) ∧
      packLE4 w2 = some (le4bytes w2.toNat) ∧
      encodeCmd ⟨some "bswap", [("dst", -1)]⟩ =
        .ok (le4bytes w1.toNat ++ le4bytes w2.toNat) :=
  C9_encoder_total "bswap" [("dst", -1)] (by decide)

/-- C10: the encoding of a command depends only on its mnemonic and the
argument names its layout reads (`dst`/`value` for `load_const`,
`dst`/`src` for `read`, `addr`/`src` for `write`, `dst` for `bswap`);
extra keys are ignored, and `bswap` always emits a zero second word. -/
theorem C10_layout_args_only (a1 a2 : List (String × Int)) :
    (getArg a1 "dst" = getArg a2 "dst" → getArg a1 "value" = getArg a2 "value" →
      encodeCmd ⟨some "load_const", a1⟩ = encodeCmd ⟨some "load_const", a2⟩) ∧
    (getArg a1 "dst" = getArg a2 "dst" → getArg a1 "src" = getArg a2 "src" →
      encodeCmd ⟨some "read", a1⟩ = encodeCmd ⟨some "read", a2⟩) ∧
    (getArg a1 "addr" = getArg a2 "addr" → getArg a1 "src" = getArg a2 "src" →
      encodeCmd ⟨some "write", a1⟩ = encodeCmd ⟨some "write", a2⟩) ∧
    (getArg a1 "dst" = getArg a2 "dst" →
      encodeCmd ⟨some "bswap", a1⟩ = encodeCmd ⟨some "bswap", a2⟩) ∧
    encodeCmd ⟨some "bswap", a1⟩ =
      .ok (le4bytes ((getArg a1 "dst" % 2 ^ 28).toNat <<< 4 ||| 4) ++ [0, 0, 0, 0]) := by
  refine ⟨fun h1 h2 => ?_, fun h1 h2 => ?_, fun h1 h2 => ?_, fun h1 => ?_,
    encodeCmd_bswap a1⟩
  · rw [encodeCmd_load_const, encodeCmd_load_const, h1, h2]
  · rw [encodeCmd_read, encodeCmd_read, h1, h2]
  · rw [encodeCmd_write, encodeCmd_write, h1, h2]
  · rw [encodeCmd_bswap, encodeCmd_bswap, h1]

/-- Witness for C10: an extra `junk` key does not change a `bswap`
encoding. -/
theorem C10_layout_args_only_witness :
    encodeCmd ⟨some "bswap", [("dst", 5), ("junk", 77)]⟩ =
      encodeCmd ⟨some "bswap", [("dst", 5)]⟩ :=
  (C10_layout_args_only [("dst", 5), ("junk", 77)] [("dst", 5)]).2.2.2.1 (by decide)

set_option maxRecDepth 20000 in
/-- C2: for `write` the first word is the untagged full 32-bit address
`addr & 0xFFFFFFFF` and the second word is
`((src & 0xFFFFFFF) << 4) | (0x03 & 0xFF)`, whose low 4 bits are the
`write` opcode 3 — and only for `write`: every other table mnemonic
carries its opcode tag in the low 4 bits of its first word instead. -/
theorem C2_write_encoding (args : List (String × Int)) :
    encodeCmd ⟨some "write", args⟩ =
      .ok (le4bytes (Int.land (getArg args "addr") 0xFFFFFFFF).toNat ++
           le4bytes (Int.lor ((Int.land (getArg args "src") 0xFFFFFFF) <<< 4)
             (Int.land 0x03 0xFF)).toNat) ∧
    Int.land (getArg args "addr") 0xFFFFFFFF = getArg args "addr" % 2 ^ 32 ∧
    Int.lor ((Int.land (getArg args "src") 0xFFFFFFF) <<< 4) (Int.land 0x03 0xFF) % 16 = 3 ∧
    (∀ name opcode, OPCODES.lookup name = some opcode → name ≠ "write" →
      Int.lor ((Int.land (getArg args "dst") 0xFFFFFFF) <<< 4) (Int.land opcode 0xFF) % 16
          = opcode ∧
      ∃ w2 : Int, encodeCmd ⟨some name, args⟩ =
        .ok (le4bytes (Int.lor ((Int.land (getArg args "dst") 0xFFFFFFF) <<< 4)
               (Int.land opcode 0xFF)).toNat ++ le4bytes w2.toNat)) := by
  refine ⟨?_, land_mask32_eq _, ?_, ?_⟩
  · rw [tagged_word_toNat, land_mask32_eq, encodeCmd_write args]
    rfl
  · exact tagged_word_emod16 _ 3 (by decide)
  · intro name opcode hlt hne
    have hs : (OPCODES.lookup name).isSome := by
      rw [hlt]
      rfl
    rcases lookup_isSome_cases hs with h1 | h1 | h1 | h1 <;> subst h1
    · have hop : opcode = 1 := by
        have h2 : some (1 : Int) = some opcode := by
          rw [← hlt]
          rfl
        injection h2 with h3
        exact h3.symm
      subst hop
      refine ⟨tagged_word_emod16 _ 1 (by decide), ⟨Int.land (getArg args "value") 0xFFFFFFFF, ?_⟩⟩
      rw [tagged_word_toNat, land_mask32_eq, encodeCmd_load_const args]
      rfl
    · have hop : opcode = 2 := by
        have h2 : some (2 : Int) = some opcode := by
          rw [← hlt]
          rfl
        injection h2 with h3
        exact h3.symm
      subst hop
      refine ⟨tagged_word_emod16 _ 2 (by decide), ⟨Int.land (getArg args "src") 0xFFFFFFFF, ?_⟩⟩
      rw [tagged_word_toNat, land_mask32_eq, encodeCmd_read args]
      rfl
    · exact absurd rfl hne
    · have hop : opcode = 4 := by
        have h2 : some (4 : Int) = some opcode := by
          rw [← hlt]
          rfl
        injection h2 with h3
        exact h3.symm
      subst hop
      refine ⟨tagged_word_emod16 _ 4 (by decide), ⟨0, ?_⟩⟩
      rw [tagged_word_toNat, encodeCmd_bswap args]
      rfl

/-- Witness for C2: the tag-in-first-word conjunct applied at `read`. -/
theorem C2_write_encoding_witness :
    Int.lor ((Int.land (getArg [("dst", 1), ("src", 2)] "dst") 0xFFFFFFF) <<< 4)
        (Int.land 2 0xFF) % 16 = 2 ∧
    ∃ w2 : Int, encodeCmd ⟨some "read", [("dst", 1), ("src", 2)]⟩ =
      .ok (le4bytes (Int.lor ((Int.land (getArg [("dst", 1), ("src", 2)] "dst") 0xFFFFFFF) <<< 4)
             (Int.land 2 0xFF)).toNat ++ le4bytes w2.toNat) :=
  (C2_write_encoding [("dst", 1), ("src", 2)]).2.2.2 "read" 2 (by decide) (by decide)

end Assembler
